import Mathlib

/-!
Verification of the pea-fan score aggregation and leaderboard-serving engine.

This file shallowly embeds the parts of the repository that the verified
properties talk about:

* the SQL schema, ranked views and recalc functions of the score store
  (`src/unnamed/part_032`);
* the client fetch utilities (`src/client/src/lib/utils/index.ts`);
* the TTL tenant cache (`src/client/src/lib/observability/server/cache.svelte.ts`);
* the Helix profile-enrichment client (`src/client/src/lib/server/helix/utils.ts`);
* the Redis read layer (`src/client/src/lib/server/db/redis.ts`);
* the legacy migrator (`src/client/src/lib/server/db/psql/migrate.ts`).

JavaScript numbers that occur here are integers (page counters, score totals),
so they are modelled as `Int`, with `Option Int` standing for a possibly-NaN
value (`none` = NaN).  Strings that flow through `Number(...)` are modelled by
the inductive `JSStr`: a decimal-numeral string or a non-numeric string.
-/

namespace PeaFan

/-- A JavaScript string as classified by numeric coercion: `numLit n` stands for
a (nonempty) decimal numeral string such as `"42"`, and `raw s` for any other
string (including the empty string). -/
inductive JSStr where
  | numLit (n : Int)
  | raw (s : String)
deriving DecidableEq, Repr

/-- `Number(x)` on a string: numeral strings evaluate to their value, other
strings to NaN (modelled as `none`).  (`Number("")` being `0` never matters
below: empty strings only reach `Number` through paths guarded by `isNumeric`
or represent stored totals, which are written as numerals.) -/
def jsNumber : JSStr → Option Int
  | .numLit n => some n
  | .raw _ => none

/-- `Number(v)` where `v` is the nullable result of a Redis `GET`:
`Number(null) = 0`. -/
def jsNumberOfGet : Option JSStr → Option Int
  | none => some 0
  | some v => jsNumber v

/-- `Boolean(v)` for a nullable string: `null` and `""` are falsy, every other
string — including `"0"` — is truthy. -/
def jsTruthyStr : Option JSStr → Bool
  | none => false
  | some (.numLit _) => true
  | some (.raw s) => s ≠ ""

/-- Truthiness of a (possibly NaN) number: `0` and NaN are falsy. -/
def jsTruthyNum : Option Int → Bool
  | none => false
  | some n => n ≠ 0

/-- `isNumeric` from `src/client/src/lib/utils/index.ts` (lines 52-54):
`!isNaN(parseFloat(n)) && isFinite(n)`, i.e. the string is a finite numeral. -/
def isNumeric : JSStr → Bool
  | .numLit _ => true
  | .raw _ => false

/-- `strToNum` from `src/client/src/lib/utils/index.ts` (lines 56-62). -/
def strToNum (s : JSStr) : Option Int :=
  if isNumeric s then jsNumber s else none

/-- `clamp` from `src/client/src/lib/utils/index.ts` (lines 64-68), with both
bounds given. -/
def clamp (num min max : Int) : Int :=
  if num < min then min else if num > max then max else num

/-- `clamp(num, min)` with the source's default `max = num`. -/
def clampDflt (num min : Int) : Int :=
  clamp num min num

/-! ## C5/C6: the Helix enrichment client (`src/client/src/lib/server/helix/utils.ts`) -/

/-- `MAX_QUERY_LENGTH` from `RedisClientPool` — the Helix batch-size cap,
also hard-coded as `100` in `helixGetIdsFromLogins`. -/
def MAX_QUERY_LENGTH : Nat := 100

/-- `logins.slice(a, b)`: the elements with indices in `[a, b)`. -/
def jsSlice (l : List String) (a b : Nat) : List String :=
  (l.take b).drop a

/-- The batching loop shared by `helixGetIdsFromLogins` (helix/utils.ts lines
33-73) and `RedisClientPool.fetchBatchedImages` (redis.ts): starting from
`cursor = 0` and `remaining = logins.length`, it slices
`logins.slice(cursor, Math.min(cursor + 100, logins.length))`, issues one batch
request for the slice, then advances `cursor += Math.min(100, remaining)` and
`remaining -= remaining > 100 ? 100 : remaining`.  `fuel` is an upper bound on
the number of iterations; the source loop terminates because `remaining`
strictly decreases, and `helixChunks` passes enough fuel for that. -/
def chunkLoop (logins : List String) : Nat → Nat → Nat → List (List String)
  | _, _, 0 => []
  | cursor, remaining, fuel + 1 =>
    if remaining = 0 then []
    else
      jsSlice logins cursor (min (cursor + MAX_QUERY_LENGTH) logins.length) ::
        chunkLoop logins (cursor + min MAX_QUERY_LENGTH remaining)
          (remaining - (if remaining > MAX_QUERY_LENGTH then MAX_QUERY_LENGTH else remaining))
          fuel

/-- The list of batch slices the enrichment fetch sends, one underlying batch
request per element. -/
def helixChunks (logins : List String) : List (List String) :=
  chunkLoop logins 0 logins.length logins.length

/-- The identities `getBatchUrl` (helix/utils.ts lines 198-209) puts in the
query string: it `pop()`s the last element first and then appends the remaining
elements in order.  (The loop never calls it with an empty slice, so the
`undefined` placeholder JavaScript would produce for an empty `pop()` is
modelled as the empty list.) -/
def getBatchUrlLogins (logins : List String) : List String :=
  match logins.getLast? with
  | none => []
  | some last => last :: logins.dropLast

/-- A 250-identity input for the concrete batching scenario. -/
def demoLogins250 : List String :=
  List.replicate 250 "u"

/-- The `data` field of a Helix response body; the per-identity payloads are
opaque strings here. -/
structure HelixBody where
  data : List String
deriving DecidableEq, Repr

/-- The external Helix service, as observed by one enrichment call: the batched
`users` endpoint (`none` = non-200 status) and the per-identity fallback
endpoint used by `helixFetchUserImage` (`none` = non-200 status). -/
structure HelixWorld where
  batch : List String → Option HelixBody
  individual : String → Option HelixBody

/-- `helixIndividualFetch` (helix/utils.ts lines 178-196): one
`helixFetchUserImage` call per login; a failed call contributes `null`, which
the final `.flatMap(item => item).filter(Boolean)` removes, so each failure
contributes nothing and each success contributes its `data` entries. -/
def helixIndividualFetch (w : HelixWorld) (logins : List String) : Option HelixBody :=
  some { data := (logins.map (fun l => w.individual l)).flatMap (fun r =>
    match r with
    | some body => body.data
    | none => []) }

/-- `helixFetchBatchedImages` (helix/utils.ts lines 157-176): try the batch
endpoint; on a non-200 status fall back to `helixIndividualFetch`. -/
def helixFetchBatchedImages (w : HelixWorld) (logins : List String) : Option HelixBody :=
  match w.batch logins with
  | some body => some body
  | none => helixIndividualFetch w logins

/-- A Helix world whose batch endpoint always fails and whose individual
endpoint fails exactly for the login `"bad"`, for the C6 witness. -/
def demoHelixWorld : HelixWorld :=
  { batch := fun _ => none
    individual := fun l => if l = "bad" then none else some { data := [l] } }

/-! ## C7: the sort-and-zip join of `helixGetIdsFromLogins` -/

/-- A Helix user record as consumed by the join step. -/
structure HelixUser where
  id : String
  login : String
  display_name : String
  profile_image_url : String
deriving DecidableEq, Repr

/-- A Helix chat-color record. -/
structure HelixColor where
  user_id : String
  user_name : String
  color : String
deriving DecidableEq, Repr

/-- The comparator `(a, b) => a.id > b.id ? 1 : -1` used on the profile result
set: ascending order of `id`. -/
def userIdLe (a b : HelixUser) : Prop :=
  a.id ≤ b.id

instance : DecidableRel userIdLe := fun a b => by
  unfold userIdLe; infer_instance

instance : IsTotal HelixUser userIdLe :=
  ⟨fun a b => le_total a.id b.id⟩

instance : IsTrans HelixUser userIdLe :=
  ⟨fun _ _ _ h h2 => le_trans h h2⟩

/-- The comparator `(a, b) => a.user_id > b.user_id ? 1 : -1` used on the color
result set: ascending order of `user_id`. -/
def colorIdLe (a b : HelixColor) : Prop :=
  a.user_id ≤ b.user_id

instance : DecidableRel colorIdLe := fun a b => by
  unfold colorIdLe; infer_instance

instance : IsTotal HelixColor colorIdLe :=
  ⟨fun a b => le_total a.user_id b.user_id⟩

instance : IsTrans HelixColor colorIdLe :=
  ⟨fun _ _ _ h h2 => le_trans h h2⟩

/-- Two profile records returned out of request order, for the C7 witness. -/
def demoJoinUsers : List HelixUser :=
  [{ id := "2", login := "b", display_name := "B", profile_image_url := "ib" },
   { id := "1", login := "a", display_name := "A", profile_image_url := "ia" }]

/-- The matching color records, in a different order, for the C7 witness. -/
def demoJoinColors : List HelixColor :=
  [{ user_id := "1", user_name := "A", color := "red" },
   { user_id := "2", user_name := "B", color := "blue" }]

/-- The join step of `helixGetIdsFromLogins` (helix/utils.ts lines 52-66): sort
the profile results by `id`, sort the color results by `user_id`, then zip them
position-wise (`colors[idx]` is an optional index lookup here; JavaScript would
crash on a missing index). -/
def helixJoinByIdx (data : List HelixUser) (colors : List HelixColor) :
    List (HelixUser × Option HelixColor) :=
  ((List.insertionSort userIdLe data).enum).map
    (fun p => (p.2, (List.insertionSort colorIdLe colors).get? p.1))

/-! ## C3: `FetchUtil.fetchLeaderboard` (`src/client/src/lib/utils/index.ts`) -/

/-- The two leaderboard kinds. -/
inductive Variant where
  | channel
  | chatter
deriving DecidableEq, Repr

/-- `PaginatedRequest` from the client types: raw query strings. -/
structure PaginatedRequest where
  limit : JSStr
  page : JSStr
deriving DecidableEq, Repr

/-- `PaginatedResponse` from the client types (`src/unnamed/part_025` lines
48-54); entry payloads are opaque strings here. -/
structure PaginatedResponse where
  page : Int
  total_items : Int
  total_pages : Int
  page_size : Int
  items : List String
deriving DecidableEq, Repr

/-- The `limit` query parameter `fetchLeaderboard` appends:
`if (limit) url.searchParams.append("limit", String(limit))`. -/
def limitParam (limit : JSStr) : Option Int :=
  match strToNum limit with
  | some l => if l ≠ 0 then some l else none
  | none => none

/-- The `page` query parameter `fetchLeaderboard` appends:
`if (page) url.searchParams.append("page", String(clamp(page - 1, 0)))`. -/
def pageParam (page : JSStr) : Option Int :=
  match strToNum page with
  | some p => if p ≠ 0 then some (clampDflt (p - 1) 0) else none
  | none => none

/-- `FetchUtil.fetchLeaderboard` (utils/index.ts lines 192-227).  The server is
a function from the request (variant, optional page parameter, optional limit
parameter) to the response body.  If `body.total_pages < Number(pagination.page)`
the source re-invokes itself with `pagination.page = String(body.total_pages)`;
`fuel` bounds that recursion (`none` = fuel exhausted, which never happens for
a server with stable `total_pages`). -/
def fetchLeaderboard (server : Variant → Option Int → Option Int → PaginatedResponse)
    (variant : Variant) (pagination : PaginatedRequest) : Nat → Option PaginatedResponse
  | 0 => none
  | fuel + 1 =>
    let body := server variant (pageParam pagination.page) (limitParam pagination.limit)
    match jsNumber pagination.page with
    | some n =>
      if body.total_pages < n then
        fetchLeaderboard server variant { pagination with page := .numLit body.total_pages } fuel
      else
        some body
    | none => some body

/-- A concrete server whose `total_pages` is always `2`, for the C3 witness. -/
def demoServer : Variant → Option Int → Option Int → PaginatedResponse :=
  fun _ p _ =>
    { page := (p.getD 0), total_items := 11, total_pages := 2, page_size := 10, items := [] }

/-! ## C4: the TTL tenant cache (`cache.svelte.ts`) -/

/-- The mutable fields of `Cache`: `_data`, `_lastRefresh`, `_ttlMs`. -/
structure CacheState where
  data : List String
  lastRefresh : Option Int
  ttlMs : Int
deriving DecidableEq, Repr

/-- What one `fetch(this.url)` inside `refresh()` produced: a parsed JSON array
of names, a non-success HTTP response, a rejected fetch promise, or a body
whose JSON parsing failed. -/
inductive FetchOutcome where
  | ok (names : List String)
  | httpError
  | transportError
  | jsonError
deriving DecidableEq, Repr

/-- One refresh opportunity: the current clock value and the fetch outcome. -/
structure RefreshInput where
  now : Int
  fetch : FetchOutcome
deriving DecidableEq, Repr

/-- Outcomes other than a parsed successful response. -/
def FetchOutcome.isFailure : FetchOutcome → Bool
  | .ok _ => false
  | _ => true

/-- `Cache.ttlElapsed` (cache.svelte.ts lines 64-73):
`_lastRefresh == null || _lastRefresh + _ttlMs < Date.now()`. -/
def ttlElapsed (st : CacheState) (now : Int) : Bool :=
  match st.lastRefresh with
  | none => true
  | some lr => lr + st.ttlMs < now

/-- A thrown JavaScript exception propagating out of an `async` method. -/
inductive JsError where
  | thrown
deriving DecidableEq, Repr

/-- `Cache.refresh` (cache.svelte.ts lines 24-55).  Returns the state of the
cache when the method finishes together with the exception it threw, if any:
a fresh TTL or a non-success response returns with the state untouched; a
rejected `fetch` or a JSON parse error throws before any field is assigned; a
successful fetch replaces `_data` wholesale and stamps `_lastRefresh`. -/
def Cache.refresh (st : CacheState) (input : RefreshInput) : CacheState × Option JsError :=
  if ¬ ttlElapsed st input.now then (st, none)
  else
    match input.fetch with
    | .transportError => (st, some .thrown)
    | .httpError => (st, none)
    | .jsonError => (st, some .thrown)
    | .ok names => ({ st with data := names, lastRefresh := some input.now }, none)

/-- `Cache.exists` (cache.svelte.ts lines 58-61): `await this.refresh()` then
`this._data.has(name)`.  The middle component is the boolean answer; it is
`none` when `refresh` threw, in which case the call rejects instead of
answering. -/
def Cache.existsCall (st : CacheState) (input : RefreshInput) (name : String) :
    CacheState × Option Bool × Option JsError :=
  let r := Cache.refresh st input
  match r.2 with
  | some e => (r.1, none, some e)
  | none => (r.1, some (r.1.data.contains name), none)

/-- A cache state holding one last-known-good set, for the C4 scenarios. -/
def demoCacheState : CacheState :=
  { data := ["a", "b"], lastRefresh := some 0, ttlMs := 300000 }

/-- A refresh opportunity whose fetch transport-fails, long after the TTL. -/
def demoTransportFail : RefreshInput :=
  { now := 10000000, fetch := .transportError }

/-- A refresh opportunity whose fetch returns a non-success status. -/
def demoHttpFail : RefreshInput :=
  { now := 10000000, fetch := .httpError }

/-! ## C8/C10: the Redis read layer (`src/client/src/lib/server/db/redis.ts`) -/

/-- `RedisClientPool.REDACTED_USER` (redis.ts line 50): the string
`'{{REDACTED_USER}}'` (braces written as escapes). -/
def REDACTED_USER : String :=
  "\x7b\x7bREDACTED_USER\x7d\x7d"

/-- The key-value view of the Redis store: `GET k` returns the stored string
or `null`.  Reads never change it; `getUserFromCache` only issues `GET`s. -/
def RedisStore : Type :=
  String → Option JSStr

/-- The `RedisUserData` record returned by `getUserFromCache`.  `total` is the
result of `Number(...)` (`none` = NaN); `image` is the raw nullable `GET`. -/
structure RedisUserData where
  name : String
  total : Option Int
  image : Option JSStr
  redact : Bool
  prevImgFetch : Bool
deriving DecidableEq, Repr

/-- `RedisClientPool.getUserFromCache` (redis.ts lines 505-527):
`total = Number(GET key:name:total)`, `redact = Boolean(GET key:name:redact)`,
`prevImgFetch = Boolean(GET user:name:prev_helix_fetch)`; when `redact` is
truthy the returned `name` is the `REDACTED_USER` sentinel and `image` is
`null`, otherwise `image` is `GET key:name:image`. -/
def getUserFromCache (store : RedisStore) (key name : String) : RedisUserData :=
  let total := jsNumberOfGet (store (key ++ ":" ++ name ++ ":total"))
  let redact := jsTruthyStr (store (key ++ ":" ++ name ++ ":redact"))
  let prevImgFetch := jsTruthyStr (store ("user:" ++ name ++ ":prev_helix_fetch"))
  let image := if redact then none else store (key ++ ":" ++ name ++ ":image")
  { name := if redact then REDACTED_USER else name
    total := total
    image := if redact then none else image
    redact := redact
    prevImgFetch := prevImgFetch }

/-- An entry of the array `getUserData` resolves:
`{ [returnKey]: name, total, image }`. -/
structure LeaderboardEntry where
  login : String
  total : Int
  image : Option JSStr
deriving DecidableEq, Repr

/-- The `users.map(...)` callback body of `RedisClientPool.getUserData`
(redis.ts lines 385-411): read the cached record, and return an entry only
when the cached `total` is truthy (a number other than `0` and NaN); otherwise
the callback returns `undefined` and the entry is filtered out later.  (The
`prev_helix_fetch` side write targets the key of the same user only, so it
cannot affect any other entry of the same pass.) -/
def getUserDataEntry (store : RedisStore) (storedKey name : String) :
    Option LeaderboardEntry :=
  let d := getUserFromCache store storedKey name
  if jsTruthyNum d.total then
    some { login := d.name, total := d.total.getD 0, image := d.image }
  else
    none

/-- The final sort of `getUserData` (redis.ts lines 437-441):
`(a, b) => a.total < b.total ? 1 : -1`, i.e. descending totals. -/
def totalDescLe (a b : LeaderboardEntry) : Prop :=
  b.total ≤ a.total

instance : DecidableRel totalDescLe := fun a b => by
  unfold totalDescLe; infer_instance

instance : IsTotal LeaderboardEntry totalDescLe :=
  ⟨fun a b => le_total b.total a.total⟩

instance : IsTrans LeaderboardEntry totalDescLe :=
  ⟨fun _ _ _ h h2 => le_trans h2 h⟩

/-- `RedisClientPool.getUserData` (redis.ts lines 375-444): resolve every
input name against the cache, drop the nullish entries
(`.filter(i => i != null && i != undefined)`), and sort by total descending. -/
def getUserData (store : RedisStore) (storedKey : String) (users : List String) :
    List LeaderboardEntry :=
  List.insertionSort totalDescLe
    ((users.map (fun u => getUserDataEntry store storedKey u)).filterMap id)

/-- A store holding one redacted chatter `u1` with a nonzero total and a cached
image, for the C8 scenarios. -/
def demoRedactedStore : RedisStore := fun k =>
  if k = "user:u1:total" then some (.numLit 42)
  else if k = "user:u1:redact" then some (.numLit 1)
  else if k = "user:u1:image" then some (.raw "https://img") else none

/-! ## C1/C2: the score store schema and ranked views (`src/unnamed/part_032`) -/

/-- A row of the `chatter` table (part_032 lines 3-13); timestamps are abstract
instants modelled as integers. -/
structure ChatterRow where
  id : String
  login : String
  name : String
  color : String
  image : String
  total : Int
  priv : Bool
  created_at : Int
  updated_at : Int
deriving DecidableEq, Repr

/-- A row of the `channel` table (part_032 lines 15-21). -/
structure ChannelRow where
  id : String
  channel_total : Int
  created_at : Int
  updated_at : Int
deriving DecidableEq, Repr

/-- A row of the `score` table (part_032 lines 24-32). -/
structure ScoreRow where
  chatter_id : String
  channel_id : String
  score : Int
  created_at : Int
  updated_at : Int
deriving DecidableEq, Repr

/-- The database the schema file creates. -/
structure Database where
  chatter : List ChatterRow
  channel : List ChannelRow
  score : List ScoreRow
deriving DecidableEq, Repr

/-- `ORDER BY total DESC, updated_at ASC` of `ranked_scores_view_chatters`
(part_032 lines 45-47). -/
def chatterViewLe (a b : ChatterRow) : Prop :=
  a.total > b.total ∨ (a.total = b.total ∧ a.updated_at ≤ b.updated_at)

instance : DecidableRel chatterViewLe := fun a b => by
  unfold chatterViewLe; infer_instance

instance : IsTotal ChatterRow chatterViewLe :=
  ⟨fun a b => by unfold chatterViewLe; omega⟩

instance : IsTrans ChatterRow chatterViewLe :=
  ⟨fun _ _ _ h h2 => by unfold chatterViewLe at *; omega⟩

/-- `ORDER BY c.total DESC, c.created_at ASC` of `chatter_leaderboard`
(part_032 lines 91-95). -/
def chatterBoardLe (a b : ChatterRow) : Prop :=
  a.total > b.total ∨ (a.total = b.total ∧ a.created_at ≤ b.created_at)

instance : DecidableRel chatterBoardLe := fun a b => by
  unfold chatterBoardLe; infer_instance

instance : IsTotal ChatterRow chatterBoardLe :=
  ⟨fun a b => by unfold chatterBoardLe; omega⟩

instance : IsTrans ChatterRow chatterBoardLe :=
  ⟨fun _ _ _ h h2 => by unfold chatterBoardLe at *; omega⟩

/-- `ORDER BY b.channel_total DESC, b.updated_at ASC` of
`ranked_scores_view_channels` (part_032 lines 60-62), lifted to join rows. -/
def channelViewLe (a b : ChannelRow × ChatterRow) : Prop :=
  a.1.channel_total > b.1.channel_total ∨
    (a.1.channel_total = b.1.channel_total ∧ a.1.updated_at ≤ b.1.updated_at)

instance : DecidableRel channelViewLe := fun a b => by
  unfold channelViewLe; infer_instance

instance : IsTotal (ChannelRow × ChatterRow) channelViewLe :=
  ⟨fun a b => by unfold channelViewLe; omega⟩

instance : IsTrans (ChannelRow × ChatterRow) channelViewLe :=
  ⟨fun _ _ _ h h2 => by unfold channelViewLe at *; omega⟩

/-- `ORDER BY ch.channel_total DESC, ch.created_at ASC` of
`channel_leaderboard` (part_032 lines 109-113), lifted to join rows. -/
def channelBoardLe (a b : ChannelRow × ChatterRow) : Prop :=
  a.1.channel_total > b.1.channel_total ∨
    (a.1.channel_total = b.1.channel_total ∧ a.1.created_at ≤ b.1.created_at)

instance : DecidableRel channelBoardLe := fun a b => by
  unfold channelBoardLe; infer_instance

instance : IsTotal (ChannelRow × ChatterRow) channelBoardLe :=
  ⟨fun a b => by unfold channelBoardLe; omega⟩

instance : IsTrans (ChannelRow × ChatterRow) channelBoardLe :=
  ⟨fun _ _ _ h h2 => by unfold channelBoardLe at *; omega⟩

/-- `ORDER BY s.score DESC, s.created_at ASC` inside each partition of
`ranked_scores_view_per_channel` (part_032 lines 74-77). -/
def scorePerChannelLe (a b : ScoreRow) : Prop :=
  a.score > b.score ∨ (a.score = b.score ∧ a.created_at ≤ b.created_at)

instance : DecidableRel scorePerChannelLe := fun a b => by
  unfold scorePerChannelLe; infer_instance

instance : IsTotal ScoreRow scorePerChannelLe :=
  ⟨fun a b => by unfold scorePerChannelLe; omega⟩

instance : IsTrans ScoreRow scorePerChannelLe :=
  ⟨fun _ _ _ h h2 => by unfold scorePerChannelLe at *; omega⟩

/-- `ROW_NUMBER() OVER (ORDER BY ...)`: pair the ordered rows with the dense
1-based running count. -/
def addRankings {α : Type} (l : List α) : List (α × Nat) :=
  l.zip (List.range' 1 l.length)

/-- `ranked_scores_view_chatters` (part_032 lines 34-48). -/
def rankedScoresViewChatters (chatters : List ChatterRow) : List (ChatterRow × Nat) :=
  addRankings (List.insertionSort chatterViewLe chatters)

/-- `chatter_leaderboard` (part_032 lines 80-96). -/
def chatterLeaderboard (chatters : List ChatterRow) : List (ChatterRow × Nat) :=
  addRankings (List.insertionSort chatterBoardLe chatters)

/-- The inner `JOIN chatter c ON b.id = c.id` of the channel views; `chatter.id`
is a primary key, so each channel row matches at most one chatter row. -/
def channelJoinChatter (channels : List ChannelRow) (chatters : List ChatterRow) :
    List (ChannelRow × ChatterRow) :=
  channels.filterMap (fun ch => (chatters.find? (fun c => c.id == ch.id)).map (fun c => (ch, c)))

/-- `ranked_scores_view_channels` (part_032 lines 50-64). -/
def rankedScoresViewChannels (channels : List ChannelRow) (chatters : List ChatterRow) :
    List ((ChannelRow × ChatterRow) × Nat) :=
  addRankings (List.insertionSort channelViewLe (channelJoinChatter channels chatters))

/-- `channel_leaderboard` (part_032 lines 98-115). -/
def channelLeaderboard (channels : List ChannelRow) (chatters : List ChatterRow) :
    List ((ChannelRow × ChatterRow) × Nat) :=
  addRankings (List.insertionSort channelBoardLe (channelJoinChatter channels chatters))

/-- The `channel_id = cid` partition of `ranked_scores_view_per_channel`
(part_032 lines 67-78), with its partition-local `ROW_NUMBER()`. -/
def rankedScoresViewPerChannel (scores : List ScoreRow) (cid : String) :
    List (ScoreRow × Nat) :=
  addRankings
    (List.insertionSort scorePerChannelLe (scores.filter (fun s => s.channel_id == cid)))

/-- Two chatters with equal totals: `cxRowA` was created earlier but updated
later than `cxRowB`. -/
def cxRowA : ChatterRow :=
  { id := "a", login := "a", name := "a", color := "#000000", image := "i"
    total := 10, priv := false, created_at := 0, updated_at := 10 }

/-- See `cxRowA`. -/
def cxRowB : ChatterRow :=
  { id := "b", login := "b", name := "b", color := "#000000", image := "i"
    total := 10, priv := false, created_at := 5, updated_at := 1 }

/-! ## C2: the recalc functions (`part_032` lines 117-137) -/

/-- The columns of the `channel` table (part_032 lines 15-21). -/
def channelColumns : List String :=
  ["id", "channel_total", "created_at", "updated_at"]

/-- The columns of the `chatter` table (part_032 lines 3-13). -/
def chatterColumns : List String :=
  ["id", "login", "name", "color", "image", "total", "private", "created_at", "updated_at"]

/-- `COALESCE(SUM(score), 0) FROM score WHERE chatter_id = cid`. -/
def sumScoresForChatter (db : Database) (cid : String) : Int :=
  ((db.score.filter (fun s => s.chatter_id == cid)).map ScoreRow.score).sum

/-- `COALESCE(SUM(score), 0) FROM score WHERE channel_id = hid`. -/
def sumScoresForChannel (db : Database) (hid : String) : Int :=
  ((db.score.filter (fun s => s.channel_id == hid)).map ScoreRow.score).sum

/-- `recalc_chatter_total` (part_032 lines 117-126): its UPDATE sets
`chatter.total` to the coalesced sum and bumps `updated_at`. -/
def recalcChatterTotal (db : Database) (cid : String) (now : Int) : Database :=
  { db with chatter := db.chatter.map (fun c =>
      if c.id == cid then
        { c with total := sumScoresForChatter db cid, updated_at := now }
      else c) }

/-- An SQL statement error. -/
inductive SqlError where
  | undefinedColumn (col : String)
deriving DecidableEq, Repr

/-- The SET-clause column list of the UPDATE inside `recalc_channel_total`
(part_032 lines 131-135): `SET total = ..., updated_at = NOW()`. -/
def recalcChannelSetColumns : List String :=
  ["total", "updated_at"]

/-- `recalc_channel_total` (part_032 lines 128-137).  An UPDATE whose SET
clause names a column absent from the target table fails with an
undefined-column error; the `channel` table has `channel_total` but no `total`
column, so the success branch below is unreachable (it leaves the database
unchanged). -/
def recalcChannelTotal (db : Database) (hid : String) (now : Int) :
    Except SqlError Database :=
  match recalcChannelSetColumns.find? (fun c => ¬ channelColumns.contains c) with
  | some col => .error (.undefinedColumn col)
  | none =>
    .ok { db with channel := db.channel.map (fun h =>
      if h.id == hid then { h with channel_total := sumScoresForChannel db hid, updated_at := now }
      else h) }

/-! ## C9: the legacy migrator (`src/client/src/lib/server/db/psql/migrate.ts`)

Every database write the migrator performs is a drizzle
`insert(...).values(...).onConflictDoUpdate({target, set})`.  The generic shape
below captures those writes: `aval` is the column group both the INSERT values
and the conflict SET assign (from the same source expressions), and `bval` is
the column group the conflict SET assigns only when present — `none` models a
SET clause that leaves the column alone, in which case the INSERT used an
explicit default `d` (the chatters upsert of `updateChannelKeys` inserts
`total: 0` but does not touch `total` on conflict).  Every INSERT also stamps
`created_at`/`updated_at` with the current time, and every conflict SET stamps
`updatedAt: sql NOW()`.

The migrator's reads (the `user:*:total` / `channel:*:total` key scans, the
legacy totals and leaderboards, and the Helix resolution) are unaffected by its
writes: the keys it writes (`chatter:{id}:*`, `channel:{login}:id`,
`channel:#{login}:leaderboard` additions) match none of the scan patterns it
reads, and the only written key it reads back — `channel:{br}:id`, written by
`updateChannelKeys` before `updateChatterKeys` runs — holds the deterministic
Helix resolution of the unchanged legacy log.  A run is therefore a function of
the resolved log alone, modelled by `LegacyLog` below. -/

/-- A keyed row: `a` is rewritten by every upsert for the key, `b` only by
upserts that set it; both timestamps are stamped by the write that produced
them. -/
structure TRow (κ α β : Type) where
  key : κ
  a : α
  b : β
  created_at : Int
  updated_at : Int
deriving DecidableEq, Repr

/-- A `TRow` with the timestamp columns projected away. -/
structure PRow (κ α β : Type) where
  key : κ
  a : α
  b : β
deriving DecidableEq, Repr

/-- Forget the timestamps of a row. -/
def TRow.strip {κ α β : Type} (r : TRow κ α β) : PRow κ α β :=
  { key := r.key, a := r.a, b := r.b }

/-- One `INSERT ... ON CONFLICT (key) DO UPDATE` write. -/
structure UpsertWrite (κ α β : Type) where
  key : κ
  aval : α
  bval : Option β
deriving DecidableEq, Repr

/-- Apply one upsert at time `t`: on conflict update the existing row
(`a := aval`, `b := bval` when present, `updated_at := t`); otherwise insert a
new row with `b` defaulting to `d` and both timestamps set to `t`. -/
def upsertRow {κ α β : Type} [DecidableEq κ] (d : β) (t : Int)
    (w : UpsertWrite κ α β) (tbl : List (TRow κ α β)) : List (TRow κ α β) :=
  if tbl.any (fun r => r.key == w.key) then
    tbl.map (fun r =>
      if r.key == w.key then { r with a := w.aval, b := w.bval.getD r.b, updated_at := t }
      else r)
  else
    tbl ++ [{ key := w.key, a := w.aval, b := w.bval.getD d, created_at := t, updated_at := t }]

/-- The conflict-update branch of a single upsert, as a row rewriter. -/
def updIfKey {κ α β : Type} [DecidableEq κ] (w : UpsertWrite κ α β)
    (r : PRow κ α β) : PRow κ α β :=
  if r.key == w.key then { r with a := w.aval, b := w.bval.getD r.b } else r

/-- The insert branch of a single upsert. -/
def insRow {κ α β : Type} (d : β) (w : UpsertWrite κ α β) : PRow κ α β :=
  { key := w.key, a := w.aval, b := w.bval.getD d }

/-- The timestamp-free counterpart of `upsertRow`. -/
def upsertRowP {κ α β : Type} [DecidableEq κ] (d : β)
    (w : UpsertWrite κ α β) (tbl : List (PRow κ α β)) : List (PRow κ α β) :=
  if tbl.any (fun r => r.key == w.key) then tbl.map (updIfKey w)
  else tbl ++ [insRow d w]

/-- Apply a sequence of upserts in order, at time `t`. -/
def applyWrites {κ α β : Type} [DecidableEq κ] (d : β) (t : Int)
    (ws : List (UpsertWrite κ α β)) (tbl : List (TRow κ α β)) : List (TRow κ α β) :=
  ws.foldl (fun tb w => upsertRow d t w tb) tbl

/-- Apply a sequence of timestamp-free upserts in order. -/
def applyWritesP {κ α β : Type} [DecidableEq κ] (d : β)
    (ws : List (UpsertWrite κ α β)) (tbl : List (PRow κ α β)) : List (PRow κ α β) :=
  ws.foldl (fun tb w => upsertRowP d w tb) tbl

/-- The writes in `ws` whose key is `k`, in order. -/
def writesFor {κ α β : Type} [DecidableEq κ] (ws : List (UpsertWrite κ α β)) (k : κ) :
    List (UpsertWrite κ α β) :=
  ws.filter (fun w => w.key == k)

/-- The `a` value of the last write for `k`, if any. -/
def lastA {κ α β : Type} [DecidableEq κ] (ws : List (UpsertWrite κ α β)) (k : κ) : Option α :=
  ((writesFor ws k).map (fun w => w.aval)).getLast?

/-- The `b` value of the last write for `k` that sets `b`, if any. -/
def lastB {κ α β : Type} [DecidableEq κ] (ws : List (UpsertWrite κ α β)) (k : κ) : Option β :=
  ((writesFor ws k).filterMap (fun w => w.bval)).getLast?

/-- The first write of `ws` for each distinct key, in first-occurrence order. -/
def firstWrites {κ α β : Type} [DecidableEq κ] :
    List (UpsertWrite κ α β) → List (UpsertWrite κ α β)
  | [] => []
  | w :: ws => w :: (firstWrites ws).filter (fun v => ¬ v.key == w.key)

/-- How the writes `ws` rewrite an existing row: the last `a` written for its
key, and the last `b` set for its key (keeping the old `b` when no write set
it). -/
def rewRow {κ α β : Type} [DecidableEq κ] (ws : List (UpsertWrite κ α β))
    (r : PRow κ α β) : PRow κ α β :=
  match lastA ws r.key with
  | none => r
  | some av => { r with a := av, b := (lastB ws r.key).getD r.b }

/-- The row a fresh key ends up with after all writes of `ws` for it. -/
def mkRow {κ α β : Type} [DecidableEq κ] (d : β) (ws : List (UpsertWrite κ α β))
    (w : UpsertWrite κ α β) : PRow κ α β :=
  { key := w.key, a := (lastA ws w.key).getD w.aval, b := (lastB ws w.key).getD d }

/-- The writes of `ws` that create rows not present in `tbl`: the first write
of each fresh key, in order. -/
def newKeysOf {κ α β : Type} [DecidableEq κ] (ws : List (UpsertWrite κ α β))
    (tbl : List (PRow κ α β)) : List (UpsertWrite κ α β) :=
  (firstWrites ws).filter (fun w => ¬ tbl.any (fun r => r.key == w.key))

/-- The normal form of `applyWritesP d ws tbl`: every existing row is rewritten
by the last writes for its key, and one new row per fresh key is appended in
first-write order. -/
def semTable {κ α β : Type} [DecidableEq κ] (d : β)
    (ws : List (UpsertWrite κ α β)) (tbl : List (PRow κ α β)) : List (PRow κ α β) :=
  tbl.map (rewRow ws) ++ (newKeysOf ws tbl).map (mkRow d ws)

/-- The profile columns every chatter upsert of the migrator assigns. -/
structure ChatterProfile where
  login : String
  name : String
  color : String
  image : String
deriving DecidableEq, Repr

/-- A resolved identity as returned by `helixGetIdsFromLogins`
(its `formatted` output: `{id, login, name, image, color}`). -/
structure ResolvedUser where
  id : String
  login : String
  name : String
  color : String
  image : String
deriving DecidableEq, Repr

/-- The profile column group of a resolved identity. -/
def chatterProfileOf (u : ResolvedUser) : ChatterProfile :=
  { login := u.login, name := u.name, color := u.color, image := u.image }

/-- One legacy `channel:#{name}:total` entry, after name extraction and Helix
resolution: the resolved owner and the parsed legacy total
(`Number(total ?? 0)`). -/
structure LegacyChannel where
  user : ResolvedUser
  total : Int
deriving DecidableEq, Repr

/-- One legacy `user:{name}:total` entry, after resolution: the resolved
chatter, the parsed legacy total, and the legacy leaderboard as
`(channel name, score)` pairs (the member value split on `#` and `:`). -/
structure LegacyChatter where
  user : ResolvedUser
  total : Int
  leaderboard : List (String × Int)
deriving DecidableEq, Repr

/-- The unchanged legacy log, resolved: what both runs of the migrator read. -/
structure LegacyLog where
  channelItems : List LegacyChannel
  chatterItems : List LegacyChatter
deriving DecidableEq, Repr

/-- `GET channel:{br}:id` during `updateChatterKeys`: the resolution written by
`updateChannelKeys` (`SET channel:{login}:id = id`, migrate.ts line 183), the
same in both runs.  An unresolved name yields the empty id (JavaScript would
pass a nullish id through the cast). -/
def channelIdMap (log : LegacyLog) (br : String) : String :=
  ((log.channelItems.find? (fun c => c.user.login == br)).map (fun c => c.user.id)).getD ""

/-- The chatters-table upsert of `updateChannelKeys` (migrate.ts lines
194-216): INSERT with `total: 0`, conflict SET of the profile columns only. -/
def channelPassChatterWrite (c : LegacyChannel) : UpsertWrite String ChatterProfile Int :=
  { key := c.user.id, aval := chatterProfileOf c.user, bval := none }

/-- The channels-table upsert of `updateChannelKeys` (migrate.ts lines
220-232): INSERT `{id, total}`, conflict SET `total`. -/
def channelPassChannelWrite (c : LegacyChannel) : UpsertWrite String Int Unit :=
  { key := c.user.id, aval := c.total, bval := some () }

/-- The chatters-table upsert of `updateChatterKeys` (migrate.ts lines
90-110): INSERT and conflict SET of profile columns and `total`. -/
def chatterPassChatterWrite (c : LegacyChatter) : UpsertWrite String ChatterProfile Int :=
  { key := c.user.id, aval := chatterProfileOf c.user, bval := some c.total }

/-- The scores-table upserts of `updateChatterKeys` (migrate.ts lines
140-160): one per legacy leaderboard entry, keyed by
`(chatterId, channelId)` with the channel id looked up from the
`channel:{br}:id` mapping. -/
def chatterPassScoreWrites (log : LegacyLog) (c : LegacyChatter) :
    List (UpsertWrite (String × String) Int Unit) :=
  c.leaderboard.map (fun e =>
    { key := (c.user.id, channelIdMap log e.1), aval := e.2, bval := some () })

/-- The relational state the migrator writes into. -/
structure MigrationDb where
  chatters : List (TRow String ChatterProfile Int)
  channels : List (TRow String Int Unit)
  scores : List (TRow (String × String) Int Unit)
deriving DecidableEq, Repr

/-- `MigrationDb` with timestamps projected away. -/
structure MigrationDbP where
  chatters : List (PRow String ChatterProfile Int)
  channels : List (PRow String Int Unit)
  scores : List (PRow (String × String) Int Unit)
deriving DecidableEq, Repr

/-- Forget the timestamps of a migration database. -/
def MigrationDb.strip (db : MigrationDb) : MigrationDbP :=
  { chatters := db.chatters.map TRow.strip
    channels := db.channels.map TRow.strip
    scores := db.scores.map TRow.strip }

/-- One `_migrateOldFormat` run at time `t` (migrate.ts lines 52-59):
`updateChannelKeys` over every legacy channel, then `updateChatterKeys` over
every legacy chatter, each step performing its upserts in source order. -/
def runMigration (log : LegacyLog) (t : Int) (db : MigrationDb) : MigrationDb :=
  let db1 := log.channelItems.foldl (fun db c =>
    { db with
      chatters := upsertRow 0 t (channelPassChatterWrite c) db.chatters
      channels := upsertRow () t (channelPassChannelWrite c) db.channels }) db
  log.chatterItems.foldl (fun db c =>
    let db2 := { db with chatters := upsertRow 0 t (chatterPassChatterWrite c) db.chatters }
    (chatterPassScoreWrites log c).foldl
      (fun db w => { db with scores := upsertRow () t w db.scores }) db2) db1

/-- All chatters-table writes of one run, in order. -/
def chatterWrites (log : LegacyLog) : List (UpsertWrite String ChatterProfile Int) :=
  log.channelItems.map channelPassChatterWrite ++ log.chatterItems.map chatterPassChatterWrite

/-- All channels-table writes of one run, in order. -/
def channelWrites (log : LegacyLog) : List (UpsertWrite String Int Unit) :=
  log.channelItems.map channelPassChannelWrite

/-- All scores-table writes of one run, in order. -/
def scoreWrites (log : LegacyLog) : List (UpsertWrite (String × String) Int Unit) :=
  log.chatterItems.flatMap (fun c => chatterPassScoreWrites log c)

/-! # Theorems -/

/-! ## Shared ranking helpers -/

theorem addRankings_map_snd {α : Type} (l : List α) :
    (addRankings l).map Prod.snd = List.range' 1 l.length := by
  unfold addRankings
  exact List.map_snd_zip _ _ (by simp)

theorem addRankings_map_fst {α : Type} (l : List α) :
    (addRankings l).map Prod.fst = l := by
  unfold addRankings
  exact List.map_fst_zip _ _ (by simp)

theorem addRankings_pairwise {α : Type} {R : α → α → Prop} {l : List α}
    (h : l.Pairwise R) : (addRankings l).Pairwise (fun p q => R p.1 q.1) := by
  have hm : ((addRankings l).map Prod.fst).Pairwise R := by
    rw [addRankings_map_fst]; exact h
  exact List.pairwise_map.mp hm

/-! ## C2: the recalc functions -/

/-- C2: the claim is right and the code is wrong.  `recalc_chatter_total`'s
UPDATE does set `chatter.total` to `COALESCE(SUM(score), 0)` over the chatter's
Score rows (third conjunct), but `recalc_channel_total` cannot update any
channel total: its UPDATE sets a column `total` that does not exist on the
`channel` table (whose total column is `channel_total`), so the statement fails
with an undefined-column error for every channel. -/
theorem recalcChannelTotal_undefined_column :
    ∀ (db : Database) (cid hid : String) (now : Int),
      recalcChannelTotal db hid now = .error (.undefinedColumn "total")
      ∧ channelColumns.contains "total" = false
      ∧ ((recalcChatterTotal db cid now).chatter.all (fun c =>
          (c.id != cid) || (c.total == sumScoresForChatter db cid))) = true := by
  intro db cid hid now
  refine ⟨rfl, rfl, ?_⟩
  rw [List.all_eq_true]
  intro c hc
  simp only [recalcChatterTotal, List.mem_map] at hc
  obtain ⟨c0, _, rfl⟩ := hc
  by_cases h : c0.id == cid
  · simp [h]
  · simp [h]
    exact Or.inl (by simpa using h)

/-! ## C8: redaction at read time -/

/-- C8 counterexample: for a redacted chatter the code substitutes the sentinel
`'{{REDACTED_USER}}'` (redis.ts line 50), not the claimed `"{{REDACTED}}"`. -/
theorem redaction_sentinel_counterexample :
    jsTruthyStr (demoRedactedStore "user:u1:redact") = true
    ∧ (getUserFromCache demoRedactedStore "user" "u1").name = "\x7b\x7bREDACTED_USER\x7d\x7d"
    ∧ (getUserFromCache demoRedactedStore "user" "u1").name ≠ "\x7b\x7bREDACTED\x7d\x7d" := by
  refine ⟨rfl, rfl, ?_⟩
  decide

/-- C8 as amended: whenever the stored `redact` flag is truthy, every read
through `getUserFromCache` returns the `REDACTED_USER` sentinel
(`'{{REDACTED_USER}}'`) in place of the login, a null image, and the stored
total unchanged (still the `Number(...)` of the stored value); the read is a
pure function of the store and never mutates it. -/
theorem getUserFromCache_redacts (store : RedisStore) (key name : String)
    (h : jsTruthyStr (store (key ++ ":" ++ name ++ ":redact")) = true) :
    (getUserFromCache store key name).name = REDACTED_USER
    ∧ (getUserFromCache store key name).image = none
    ∧ (getUserFromCache store key name).total
        = jsNumberOfGet (store (key ++ ":" ++ name ++ ":total")) := by
  unfold getUserFromCache
  simp [h]

/-- C8 witness: the amended theorem applied to the concrete redacted store. -/
theorem getUserFromCache_redacts_witness :
    (getUserFromCache demoRedactedStore "user" "u1").name = REDACTED_USER
    ∧ (getUserFromCache demoRedactedStore "user" "u1").image = none
    ∧ (getUserFromCache demoRedactedStore "user" "u1").total = some 42 := by
  have h := getUserFromCache_redacts demoRedactedStore "user" "u1" (by decide)
  exact ⟨h.1, h.2.1, by rw [h.2.2]; decide⟩

/-! ## C4: the TTL cache under failing refreshes -/

theorem cache_refresh_failure_fst (st : CacheState) (input : RefreshInput)
    (h : input.fetch.isFailure = true) : (Cache.refresh st input).1 = st := by
  unfold Cache.refresh
  by_cases ht : ttlElapsed st input.now
  · cases hf : input.fetch <;> simp_all [FetchOutcome.isFailure]
  · simp [ht]

/-- C4 counterexample: a transport error during the refresh propagates out of
`exists`, so that call rejects instead of answering membership — even though
the last-known-good set still holds the key. -/
theorem cache_transport_counterexample :
    demoTransportFail.fetch.isFailure = true
    ∧ demoCacheState.data.contains "a" = true
    ∧ (Cache.existsCall demoCacheState demoTransportFail "a").2.1 = none
    ∧ (Cache.existsCall demoCacheState demoTransportFail "a").1 = demoCacheState := by
  decide

/-- C4 as amended: a failed refresh (non-success response, transport error, or
JSON parse error) never changes the cached set or the last-refresh timestamp,
and this holds across arbitrarily many consecutive failures, so the cache never
empties itself on failure; after a non-success HTTP response `exists` answers
membership from the last-known-good set, while a transport or JSON error makes
the `exists` call reject without answering (and without touching the state). -/
theorem cache_failure_keeps_last_good :
    ∀ (st : CacheState) (input : RefreshInput) (name : String)
      (inputs : List RefreshInput),
      (input.fetch.isFailure = true → (Cache.refresh st input).1 = st)
      ∧ (input.fetch = .httpError →
          Cache.existsCall st input name = (st, some (st.data.contains name), none))
      ∧ (ttlElapsed st input.now = true →
          (input.fetch = .transportError ∨ input.fetch = .jsonError) →
          Cache.existsCall st input name = (st, none, some .thrown))
      ∧ (inputs.all (fun i => i.fetch.isFailure) = true →
          inputs.foldl (fun s i => (Cache.refresh s i).1) st = st) := by
  intro st input name inputs
  refine ⟨cache_refresh_failure_fst st input, ?_, ?_, ?_⟩
  · intro h
    unfold Cache.existsCall Cache.refresh
    by_cases ht : ttlElapsed st input.now <;> simp [ht, h]
  · intro ht h
    unfold Cache.existsCall Cache.refresh
    rcases h with h | h <;> simp [ht, h]
  · induction inputs generalizing st with
    | nil => intro _; rfl
    | cons i is ih =>
      intro h
      simp only [List.all_cons, Bool.and_eq_true] at h
      rw [List.foldl_cons, cache_refresh_failure_fst st i h.1]
      exact ih st h.2

/-- C4 witness: the amended theorem at the concrete last-known-good cache. -/
theorem cache_failure_keeps_last_good_witness :
    Cache.existsCall demoCacheState demoHttpFail "a"
      = (demoCacheState, some (demoCacheState.data.contains "a"), none)
    ∧ (Cache.refresh demoCacheState demoTransportFail).1 = demoCacheState
    ∧ Cache.existsCall demoCacheState demoTransportFail "a"
        = (demoCacheState, none, some .thrown)
    ∧ [demoTransportFail, demoHttpFail].foldl
        (fun s i => (Cache.refresh s i).1) demoCacheState = demoCacheState := by
  have h := cache_failure_keeps_last_good demoCacheState demoHttpFail "a"
    [demoTransportFail, demoHttpFail]
  have h2 := cache_failure_keeps_last_good demoCacheState demoTransportFail "a" []
  exact ⟨h.2.1 rfl, h2.1 (by decide), h2.2.2.1 (by decide) (Or.inl rfl), h.2.2.2 (by decide)⟩

/-! ## C3: page clamping in `fetchLeaderboard` -/

theorem pageParam_numLit {T : Int} (h : 1 ≤ T) :
    pageParam (.numLit T) = some (T - 1) := by
  unfold pageParam strToNum isNumeric jsNumber clampDflt clamp
  simp only [if_pos]
  have hne : T ≠ 0 := by omega
  rw [if_pos hne]
  have h1 : ¬ T - 1 < 0 := by omega
  have h2 : ¬ T - 1 > T - 1 := by omega
  rw [if_neg h1, if_neg h2]

/-- C3: for every request whose numeric page exceeds the (stable) `total_pages`
of the server's responses, `fetchLeaderboard` does not error: it re-requests
with `pagination.page = String(body.total_pages)` and returns the response of
the last valid page (the `page - 1` zero-based query parameter), for either
leaderboard variant. -/
theorem fetchLeaderboard_clamps_to_last_page
    (server : Variant → Option Int → Option Int → PaginatedResponse)
    (variant : Variant) (pg : PaginatedRequest) (T n : Int)
    (hT : ∀ v p l, (server v p l).total_pages = T)
    (hp : pg.page = .numLit n) (h1 : 1 ≤ T) (hn : T < n) :
    fetchLeaderboard server variant pg 2
      = some (server variant (some (T - 1)) (limitParam pg.limit)) := by
  show fetchLeaderboard server variant pg (1 + 1)
      = some (server variant (some (T - 1)) (limitParam pg.limit))
  rw [fetchLeaderboard, hp]
  simp only [jsNumber, hT, if_pos hn]
  rw [fetchLeaderboard]
  simp only [jsNumber, hT, lt_irrefl, pageParam_numLit h1]
  simp

/-- C3 witness: a page-9 request against a 2-page server returns page 2 (query
parameter 1). -/
theorem fetchLeaderboard_clamps_witness :
    fetchLeaderboard demoServer .chatter { limit := .raw "x", page := .numLit 9 } 2
      = some { page := 1, total_items := 11, total_pages := 2, page_size := 10, items := [] } := by
  have h := fetchLeaderboard_clamps_to_last_page demoServer .chatter
    { limit := .raw "x", page := .numLit 9 } 2 9 (fun _ _ _ => rfl) rfl (by decide) (by decide)
  rw [h]
  decide

/-! ## C6: per-identity fallback after a failed batch -/

theorem flatMap_map_individual (f : String → Option HelixBody) (l : List String) :
    (l.map f).flatMap (fun r =>
        match r with
        | some body => body.data
        | none => []) = (l.filterMap f).flatMap HelixBody.data := by
  induction l with
  | nil => rfl
  | cons x xs ih =>
    cases hx : f x <;>
      simp [List.flatMap_cons, List.filterMap_cons, hx, ih]

/-- C6: when the batched profile request fails (non-200 status), the client
falls back to one individual request per identity of the batch; identities
whose individual request also fails are discarded, so the call returns the
concatenated data of exactly the successful subset (`filterMap`), and it always
returns a result — a single bad identity never fails the whole batch. -/
theorem helixBatchFallback (w : HelixWorld) (logins : List String)
    (h : w.batch logins = none) :
    helixFetchBatchedImages w logins
      = some { data := (logins.filterMap (fun l => w.individual l)).flatMap HelixBody.data }
    ∧ (helixFetchBatchedImages w logins).isSome = true := by
  have he : helixFetchBatchedImages w logins
      = some { data := (logins.filterMap (fun l => w.individual l)).flatMap HelixBody.data } := by
    unfold helixFetchBatchedImages
    rw [h]
    unfold helixIndividualFetch
    rw [flatMap_map_individual]
  exact ⟨he, by rw [he]; rfl⟩

/-- C6 witness: with the batch endpoint down and the identity `"bad"` failing
individually, the call still returns the two good profiles. -/
theorem helixBatchFallback_witness :
    helixFetchBatchedImages demoHelixWorld ["a", "bad", "b"] = some { data := ["a", "b"] }
    ∧ (helixFetchBatchedImages demoHelixWorld ["a", "bad", "b"]).isSome = true := by
  have h := helixBatchFallback demoHelixWorld ["a", "bad", "b"] rfl
  refine ⟨?_, h.2⟩
  rw [h.1]
  rfl

/-! ## C10: zero, missing and non-numeric totals are omitted -/

/-- C10: the leaderboard `getUserData` returns contains exactly the entries
resolved from input names whose cached total is a truthy number, and an input
name resolves to no entry exactly when its stored total coerces to `0` (a
stored `"0"` or a missing key, since `Number(null) = 0`) or to NaN (a
non-numeric string) — such entities are silently omitted. -/
theorem getUserData_members :
    ∀ (store : RedisStore) (storedKey : String) (users : List String)
      (e : LeaderboardEntry),
      (e ∈ getUserData store storedKey users ↔
        ∃ u ∈ users, getUserDataEntry store storedKey u = some e)
      ∧ (∀ u, getUserDataEntry store storedKey u = none ↔
          (jsNumberOfGet (store (storedKey ++ ":" ++ u ++ ":total")) = some 0
           ∨ jsNumberOfGet (store (storedKey ++ ":" ++ u ++ ":total")) = none)) := by
  intro store sk users e
  constructor
  · unfold getUserData
    rw [(List.perm_insertionSort _ _).mem_iff]
    rw [List.filterMap_map]
    simp [List.mem_filterMap]
  · intro u
    unfold getUserDataEntry
    cases htot : (getUserFromCache store sk u).total with
    | none =>
      have : jsNumberOfGet (store (sk ++ ":" ++ u ++ ":total")) = none := htot
      simp [htot, jsTruthyNum, this]
    | some n =>
      have hsome : jsNumberOfGet (store (sk ++ ":" ++ u ++ ":total")) = some n := htot
      by_cases hz : n = 0 <;> simp [htot, jsTruthyNum, hsome, hz]

/-! ## C1: the ranked views -/

/-- C1 counterexample: two chatters with equal totals where the earlier-created
one was updated later; in `ranked_scores_view_chatters` (ORDER BY total DESC,
updated_at ASC) the later-created chatter ranks first, contradicting the
claimed `created_at` tie-break for every ranked view. -/
theorem ranked_view_tiebreak_counterexample :
    cxRowA.total = cxRowB.total
    ∧ cxRowA.created_at < cxRowB.created_at
    ∧ (rankedScoresViewChatters [cxRowA, cxRowB]).map (fun p => (p.1.id, p.2))
        = [("b", 1), ("a", 2)] := by
  decide

/-- C1 as amended: every ranked view orders by its total (or score) descending
and assigns dense 1-based rank numbers (`ROW_NUMBER`) with no gaps or
duplicates over the full listing, and the listing is a permutation of the
underlying rows; `chatter_leaderboard`, `channel_leaderboard` and the
per-channel sub-score view break ties by `created_at` ascending
(earlier-created first), but `ranked_scores_view_chatters` and
`ranked_scores_view_channels` break ties by `updated_at` ascending instead. -/
theorem ranked_views_spec :
    ∀ (chs : List ChatterRow) (cns : List ChannelRow) (scs : List ScoreRow)
      (cid : String),
      ((rankedScoresViewChatters chs).map Prod.snd = List.range' 1 chs.length)
      ∧ (rankedScoresViewChatters chs).Pairwise (fun p q => chatterViewLe p.1 q.1)
      ∧ ((rankedScoresViewChatters chs).map Prod.fst).Perm chs
      ∧ ((chatterLeaderboard chs).map Prod.snd = List.range' 1 chs.length)
      ∧ (chatterLeaderboard chs).Pairwise (fun p q => chatterBoardLe p.1 q.1)
      ∧ ((chatterLeaderboard chs).map Prod.fst).Perm chs
      ∧ ((rankedScoresViewChannels cns chs).map Prod.snd
          = List.range' 1 (channelJoinChatter cns chs).length)
      ∧ (rankedScoresViewChannels cns chs).Pairwise (fun p q => channelViewLe p.1 q.1)
      ∧ ((rankedScoresViewChannels cns chs).map Prod.fst).Perm (channelJoinChatter cns chs)
      ∧ ((channelLeaderboard cns chs).map Prod.snd
          = List.range' 1 (channelJoinChatter cns chs).length)
      ∧ (channelLeaderboard cns chs).Pairwise (fun p q => channelBoardLe p.1 q.1)
      ∧ ((channelLeaderboard cns chs).map Prod.fst).Perm (channelJoinChatter cns chs)
      ∧ ((rankedScoresViewPerChannel scs cid).map Prod.snd
          = List.range' 1 (scs.filter (fun s => s.channel_id == cid)).length)
      ∧ (rankedScoresViewPerChannel scs cid).Pairwise
          (fun p q => scorePerChannelLe p.1 q.1)
      ∧ ((rankedScoresViewPerChannel scs cid).map Prod.fst).Perm
          (scs.filter (fun s => s.channel_id == cid)) := by
  intro chs cns scs cid
  unfold rankedScoresViewChatters chatterLeaderboard rankedScoresViewChannels
    channelLeaderboard rankedScoresViewPerChannel
  refine ⟨?_, ?_, ?_, ?_, ?_, ?_, ?_, ?_, ?_, ?_, ?_, ?_, ?_, ?_, ?_⟩ <;>
    first
      | (rw [addRankings_map_snd, List.length_insertionSort])
      | (exact addRankings_pairwise (List.sorted_insertionSort _ _))
      | (rw [addRankings_map_fst]; exact List.perm_insertionSort _ _)

/-! ## C5: batching into chunks of at most 100 -/

theorem jsSlice_eq_take_drop (l : List String) (a b : Nat) :
    jsSlice l a b = (l.drop a).take (b - a) := by
  unfold jsSlice
  rw [List.drop_take]

theorem chunkLoop_zero_remaining (l : List String) (c f : Nat) :
    chunkLoop l c 0 f = [] := by
  cases f <;> simp [chunkLoop]

theorem getBatchUrlLogins_perm (l : List String) : (getBatchUrlLogins l).Perm l := by
  unfold getBatchUrlLogins
  cases hl : l.getLast? with
  | none =>
    have : l = [] := by simpa using hl
    simp [this]
  | some a =>
    have hne : l ≠ [] := by rintro rfl; simp at hl
    rw [List.getLast?_eq_getLast l hne] at hl
    have ha : a = l.getLast hne := by injection hl with h; exact h.symm
    subst ha
    have hperm : (l.getLast hne :: l.dropLast).Perm (l.dropLast ++ [l.getLast hne]) :=
      (List.perm_append_singleton _ _).symm
    rw [List.dropLast_append_getLast hne] at hperm
    exact hperm

theorem chunkLoop_spec (logins : List String) :
    ∀ (fuel remaining : Nat), remaining ≤ fuel → remaining ≤ logins.length →
      (chunkLoop logins (logins.length - remaining) remaining fuel).length
          = (remaining + 99) / 100
      ∧ (chunkLoop logins (logins.length - remaining) remaining fuel).flatten
          = logins.drop (logins.length - remaining)
      ∧ ∀ c ∈ chunkLoop logins (logins.length - remaining) remaining fuel,
          c.length ≤ 100 := by
  intro fuel
  induction fuel with
  | zero =>
    intro r hr _
    have hr0 : r = 0 := by omega
    subst hr0
    simp [chunkLoop]
  | succ f ih =>
    intro r hr hrl
    by_cases hr0 : r = 0
    · subst hr0
      simp [chunkLoop]
    · rw [chunkLoop, if_neg hr0]
      have hslice : jsSlice logins (logins.length - r)
          (min (logins.length - r + MAX_QUERY_LENGTH) logins.length)
          = (logins.drop (logins.length - r)).take (min 100 r) := by
        rw [jsSlice_eq_take_drop]
        congr 1
        unfold MAX_QUERY_LENGTH
        omega
      have hlen_drop : (logins.drop (logins.length - r)).length = r := by
        rw [List.length_drop]; omega
      by_cases hbig : r > MAX_QUERY_LENGTH
      · have hif : r - (if r > MAX_QUERY_LENGTH then MAX_QUERY_LENGTH else r) = r - 100 := by
          rw [if_pos hbig]
          rfl
        have hcur : logins.length - r + min MAX_QUERY_LENGTH r
            = logins.length - (r - 100) := by
          unfold MAX_QUERY_LENGTH at *
          omega
        rw [hif, hcur, hslice]
        obtain ⟨ihl, ihf, ihb⟩ := ih (r - 100) (by omega) (by omega)
        have hmin : min 100 r = 100 := by
          unfold MAX_QUERY_LENGTH at hbig
          omega
        refine ⟨?_, ?_, ?_⟩
        · rw [List.length_cons, ihl]
          unfold MAX_QUERY_LENGTH at hbig
          omega
        · rw [List.flatten_cons, ihf, hmin]
          have hd : logins.length - (r - 100) = logins.length - r + 100 := by
            unfold MAX_QUERY_LENGTH at hbig
            omega
          rw [hd, ← List.drop_drop, List.take_append_drop]
        · intro c hc
          rcases List.mem_cons.mp hc with h | h
          · subst h
            exact le_trans (List.length_take_le _ _) (by rw [hmin])
          · exact ihb c h
      · have hif : r - (if r > MAX_QUERY_LENGTH then MAX_QUERY_LENGTH else r) = 0 := by
          rw [if_neg hbig]; omega
        have hcur : logins.length - r + min MAX_QUERY_LENGTH r = logins.length := by
          unfold MAX_QUERY_LENGTH at *
          omega
        rw [hif, hcur, hslice, chunkLoop_zero_remaining]
        have hmin : min 100 r = r := by
          unfold MAX_QUERY_LENGTH at hbig
          omega
        refine ⟨?_, ?_, ?_⟩
        · simp only [List.length_cons, List.length_nil]
          unfold MAX_QUERY_LENGTH at hbig
          omega
        · rw [List.flatten_cons, List.flatten_nil, List.append_nil, hmin]
          exact List.take_of_length_le (by omega)
        · intro c hc
          rcases List.mem_cons.mp hc with h | h
          · subst h
            exact le_trans (List.length_take_le _ _) (by omega)
          · simp at h

set_option maxRecDepth 8000 in
/-- C5: the enrichment fetch partitions its input into consecutive chunks
(concatenating the chunks gives back the input) of at most 100 identities,
issues exactly one underlying batch request per chunk — `ceil(n / 100)` of
them — with the batch URL covering every identity of its chunk (as a
permutation, since `getBatchUrl` pops the last element first); in particular a
250-identity input produces exactly 3 batches of sizes 100, 100 and 50. -/
theorem helixChunks_spec :
    ∀ logins : List String,
      (helixChunks logins).length = (logins.length + 99) / 100
      ∧ (helixChunks logins).flatten = logins
      ∧ ((helixChunks logins).all (fun c =>
          decide (c.length ≤ 100) && decide ((getBatchUrlLogins c).Perm c))) = true
      ∧ (helixChunks demoLogins250).map List.length = [100, 100, 50] := by
  intro logins
  have h := chunkLoop_spec logins logins.length logins.length le_rfl le_rfl
  rw [Nat.sub_self] at h
  unfold helixChunks
  refine ⟨h.1, by simpa using h.2.1, ?_, by decide⟩
  rw [List.all_eq_true]
  intro c hcmem
  simp [h.2.2 c hcmem, getBatchUrlLogins_perm c]

/-! ## C7: alignment of the profile/color join -/

/-- C7: whenever the color result set carries exactly the ids of the profile
result set (in any order — the external service does not guarantee response
ordering), sorting both sets by the identity id and zipping them position-wise
pairs every profile with the color record of the same identity; profile and
color data are never misaligned. -/
theorem helixJoin_aligned (data : List HelixUser) (colors : List HelixColor)
    (h : (colors.map HelixColor.user_id).Perm (data.map HelixUser.id)) :
    ((helixJoinByIdx data colors).all (fun pr =>
      match pr.2 with
      | some col => col.user_id == pr.1.id
      | none => false)) = true := by
  have hkeys : (List.insertionSort colorIdLe colors).map HelixColor.user_id
      = (List.insertionSort userIdLe data).map HelixUser.id := by
    apply List.eq_of_perm_of_sorted (r := fun a b : String => a ≤ b)
    · have hp1 : ((List.insertionSort colorIdLe colors).map HelixColor.user_id).Perm
          (colors.map HelixColor.user_id) :=
        (List.perm_insertionSort colorIdLe colors).map _
      have hp2 : ((List.insertionSort userIdLe data).map HelixUser.id).Perm
          (data.map HelixUser.id) :=
        (List.perm_insertionSort userIdLe data).map _
      exact hp1.trans (h.trans hp2.symm)
    · exact List.pairwise_map.mpr
        ((List.sorted_insertionSort colorIdLe colors).imp (fun hab => hab))
    · exact List.pairwise_map.mpr
        ((List.sorted_insertionSort userIdLe data).imp (fun hab => hab))
  have hlen : (List.insertionSort colorIdLe colors).length
      = (List.insertionSort userIdLe data).length := by
    have := congrArg List.length hkeys
    simpa using this
  rw [List.all_eq_true]
  intro pr hpr
  unfold helixJoinByIdx at hpr
  obtain ⟨⟨i, u⟩, hmem, rfl⟩ := List.mem_map.mp hpr
  rw [List.mem_enum_iff_getElem?] at hmem
  have hi : i < (List.insertionSort userIdLe data).length :=
    (List.getElem?_eq_some_iff.mp hmem).1
  have hic : i < (List.insertionSort colorIdLe colors).length := by omega
  obtain ⟨col, hcol⟩ : ∃ col, (List.insertionSort colorIdLe colors)[i]? = some col := by
    rw [List.getElem?_eq_getElem hic]
    exact ⟨_, rfl⟩
  have hkey : col.user_id = u.id := by
    have h1 : ((List.insertionSort colorIdLe colors).map HelixColor.user_id)[i]?
        = ((List.insertionSort userIdLe data).map HelixUser.id)[i]? := by
      rw [hkeys]
    rw [List.getElem?_map, List.getElem?_map, hcol, hmem] at h1
    simpa using h1
  show (match (List.insertionSort colorIdLe colors).get? i with
    | some col => col.user_id == u.id
    | none => false) = true
  rw [List.get?_eq_getElem?, hcol]
  simpa using hkey

/-- C7 witness: two profiles and two colors returned in different orders are
paired correctly after the sort-by-id join. -/
theorem helixJoin_aligned_witness :
    ((helixJoinByIdx demoJoinUsers demoJoinColors).all (fun pr =>
      match pr.2 with
      | some col => col.user_id == pr.1.id
      | none => false)) = true :=
  helixJoin_aligned demoJoinUsers demoJoinColors (by decide)

/-! ## C9: last-write / first-write bookkeeping for upsert sequences -/

section UpsertLemmas

variable {κ α β : Type} [DecidableEq κ]

theorem writesFor_append (ws ws' : List (UpsertWrite κ α β)) (k : κ) :
    writesFor (ws ++ ws') k = writesFor ws k ++ writesFor ws' k := by
  unfold writesFor
  rw [List.filter_append]

theorem lastA_append (ws ws' : List (UpsertWrite κ α β)) (k : κ) :
    lastA (ws ++ ws') k = (lastA ws' k).or (lastA ws k) := by
  unfold lastA
  rw [writesFor_append, List.map_append, List.getLast?_append]

theorem lastB_append (ws ws' : List (UpsertWrite κ α β)) (k : κ) :
    lastB (ws ++ ws') k = (lastB ws' k).or (lastB ws k) := by
  unfold lastB
  rw [writesFor_append, List.filterMap_append, List.getLast?_append]

theorem lastA_self_append (ws : List (UpsertWrite κ α β)) (k : κ) :
    lastA (ws ++ ws) k = lastA ws k := by
  rw [lastA_append, Option.or_self]

theorem lastB_self_append (ws : List (UpsertWrite κ α β)) (k : κ) :
    lastB (ws ++ ws) k = lastB ws k := by
  rw [lastB_append, Option.or_self]

theorem lastA_single (w : UpsertWrite κ α β) (k : κ) :
    lastA [w] k = if w.key == k then some w.aval else none := by
  unfold lastA writesFor
  by_cases h : w.key == k <;> simp [h]

theorem lastB_single (w : UpsertWrite κ α β) (k : κ) :
    lastB [w] k = if w.key == k then w.bval else none := by
  unfold lastB writesFor
  by_cases h : w.key == k <;> cases hb : w.bval <;> simp [h, hb]

theorem lastA_append_single (ws : List (UpsertWrite κ α β)) (w : UpsertWrite κ α β) (k : κ) :
    lastA (ws ++ [w]) k = if w.key == k then some w.aval else lastA ws k := by
  rw [lastA_append, lastA_single]
  by_cases h : w.key == k <;> simp [h]

theorem lastB_append_single (ws : List (UpsertWrite κ α β)) (w : UpsertWrite κ α β) (k : κ) :
    lastB (ws ++ [w]) k = if w.key == k then w.bval.or (lastB ws k) else lastB ws k := by
  rw [lastB_append, lastB_single]
  by_cases h : w.key == k <;> simp [h]

theorem writesFor_eq_nil_of_not_any (ws : List (UpsertWrite κ α β)) (k : κ)
    (h : ws.any (fun x => k == x.key) = false) : writesFor ws k = [] := by
  unfold writesFor
  rw [List.filter_eq_nil_iff]
  intro v hv
  have hk : ¬ (k == v.key) = true := by
    intro hkk
    have : ws.any (fun x => k == x.key) = true := List.any_eq_true.mpr ⟨v, hv, hkk⟩
    rw [h] at this
    exact Bool.false_ne_true this
  simp only [beq_iff_eq] at hk ⊢
  exact fun he => hk he.symm

theorem lastA_eq_none_of_not_any (ws : List (UpsertWrite κ α β)) (k : κ)
    (h : ws.any (fun x => k == x.key) = false) : lastA ws k = none := by
  unfold lastA
  rw [writesFor_eq_nil_of_not_any ws k h]
  rfl

theorem lastB_none_of_writesFor_nil (ws : List (UpsertWrite κ α β)) (k : κ)
    (h : writesFor ws k = []) : lastB ws k = none := by
  unfold lastB
  rw [h]
  rfl

theorem lastB_none_of_lastA_none (ws : List (UpsertWrite κ α β)) (k : κ)
    (h : lastA ws k = none) : lastB ws k = none := by
  apply lastB_none_of_writesFor_nil
  unfold lastA at h
  rw [List.getLast?_eq_none_iff, List.map_eq_nil_iff] at h
  exact h

theorem firstWrites_append (ws ws' : List (UpsertWrite κ α β)) :
    firstWrites (ws ++ ws')
      = firstWrites ws
        ++ (firstWrites ws').filter (fun v => ¬ ws.any (fun w => v.key == w.key)) := by
  induction ws with
  | nil =>
    simp [firstWrites]
  | cons w ws ih =>
    rw [List.cons_append, firstWrites, ih, List.filter_append, firstWrites,
      List.cons_append, List.filter_filter]
    congr 2
    apply List.filter_congr
    intro v _
    simp [decide_not, Bool.not_or, Bool.and_comm]

theorem mem_firstWrites (ws : List (UpsertWrite κ α β)) (v : UpsertWrite κ α β)
    (h : v ∈ firstWrites ws) : v ∈ ws := by
  induction ws with
  | nil => simp [firstWrites] at h
  | cons w ws ih =>
    rw [firstWrites, List.mem_cons] at h
    rcases h with h | h
    · exact h ▸ List.mem_cons_self w ws
    · exact List.mem_cons_of_mem w (ih (List.mem_filter.mp h).1)

theorem firstWrites_self_append (ws : List (UpsertWrite κ α β)) :
    firstWrites (ws ++ ws) = firstWrites ws := by
  rw [firstWrites_append]
  have : (firstWrites ws).filter (fun v => ¬ ws.any (fun w => v.key == w.key)) = [] := by
    rw [List.filter_eq_nil_iff]
    intro v hv
    have hmem : v ∈ ws := mem_firstWrites ws v hv
    have : ws.any (fun w => v.key == w.key) = true :=
      List.any_eq_true.mpr ⟨v, hmem, by simp⟩
    simp [this]
  rw [this, List.append_nil]

theorem rewRow_key (ws : List (UpsertWrite κ α β)) (r : PRow κ α β) :
    (rewRow ws r).key = r.key := by
  unfold rewRow
  cases lastA ws r.key <;> rfl

theorem updIfKey_key (w : UpsertWrite κ α β) (r : PRow κ α β) :
    (updIfKey w r).key = r.key := by
  unfold updIfKey
  split <;> rfl

theorem rewRow_append_single (ws : List (UpsertWrite κ α β)) (w : UpsertWrite κ α β)
    (r : PRow κ α β) : rewRow (ws ++ [w]) r = updIfKey w (rewRow ws r) := by
  by_cases hk : w.key == r.key
  · have hk2 : (rewRow ws r).key == w.key := by
      rw [rewRow_key]
      simp only [beq_iff_eq] at hk ⊢
      exact hk.symm
    unfold updIfKey
    rw [if_pos hk2]
    unfold rewRow
    rw [lastA_append_single, lastB_append_single, if_pos hk, if_pos hk]
    cases hA : lastA ws r.key with
    | none =>
      have hB : lastB ws r.key = none := lastB_none_of_lastA_none ws r.key hA
      rw [hB]
      cases hb : w.bval <;> simp
    | some av =>
      cases hb : w.bval <;> simp
  · have hk2 : ¬ (rewRow ws r).key == w.key := by
      rw [rewRow_key]
      simp only [beq_iff_eq] at hk ⊢
      exact fun he => hk he.symm
    unfold updIfKey
    rw [if_neg hk2]
    unfold rewRow
    rw [lastA_append_single, lastB_append_single, if_neg hk, if_neg hk]

theorem updIfKey_ne (w : UpsertWrite κ α β) (r : PRow κ α β)
    (hk : ¬ r.key == w.key) : updIfKey w r = r := by
  unfold updIfKey
  rw [if_neg hk]

theorem mkRow_append_single_eq (d : β) (ws : List (UpsertWrite κ α β))
    (w v : UpsertWrite κ α β) (hk : w.key == v.key) :
    mkRow d (ws ++ [w]) v = updIfKey w (mkRow d ws v) := by
  have hvw : v.key == w.key := by
    simp only [beq_iff_eq] at hk ⊢
    exact hk.symm
  unfold mkRow updIfKey
  rw [lastA_append_single, lastB_append_single, if_pos hk, if_pos hk, if_pos hvw]
  cases w.bval <;> simp

theorem mkRow_append_single_ne (d : β) (ws : List (UpsertWrite κ α β))
    (w v : UpsertWrite κ α β) (hk : ¬ w.key == v.key) :
    mkRow d (ws ++ [w]) v = mkRow d ws v := by
  unfold mkRow
  rw [lastA_append_single, lastB_append_single, if_neg hk, if_neg hk]

theorem mkRow_fresh (d : β) (ws : List (UpsertWrite κ α β)) (w : UpsertWrite κ α β)
    (hA : lastA ws w.key = none) : mkRow d (ws ++ [w]) w = insRow d w := by
  unfold mkRow insRow
  rw [lastA_append_single, lastB_append_single, if_pos (by simp), if_pos (by simp),
    lastB_none_of_lastA_none ws w.key hA]
  cases w.bval <;> simp

theorem any_key_map_rewRow (ws : List (UpsertWrite κ α β)) (tbl : List (PRow κ α β))
    (k : κ) :
    (tbl.map (rewRow ws)).any (fun r => r.key == k) = tbl.any (fun r => r.key == k) := by
  induction tbl with
  | nil => rfl
  | cons r rs ih => simp only [List.map_cons, List.any_cons, ih, rewRow_key]

theorem any_key_map_mkRow (d : β) (ws l : List (UpsertWrite κ α β)) (k : κ) :
    ((l.map (mkRow d ws)).any (fun r => r.key == k)) = l.any (fun v => v.key == k) := by
  induction l with
  | nil => rfl
  | cons v vs ih => simp only [List.map_cons, List.any_cons, ih, mkRow]

theorem firstWrites_keys_complete (ws : List (UpsertWrite κ α β)) (k : κ)
    (h : ws.any (fun x => k == x.key) = true) :
    (firstWrites ws).any (fun x => k == x.key) = true := by
  induction ws with
  | nil => simp at h
  | cons w ws ih =>
    rw [List.any_cons] at h
    rw [firstWrites, List.any_cons]
    by_cases hw : k == w.key
    · rw [hw]
      rfl
    · have h2 : ws.any (fun x => k == x.key) = true := by
        rcases Bool.or_eq_true_iff.mp h with h1 | h1
        · exact absurd h1 hw
        · exact h1
      obtain ⟨x, hx, hxk⟩ := List.any_eq_true.mp (ih h2)
      apply Bool.or_eq_true_iff.mpr
      right
      apply List.any_eq_true.mpr
      refine ⟨x, List.mem_filter.mpr ⟨hx, ?_⟩, hxk⟩
      have hxkk : x.key = k := by
        simp only [beq_iff_eq] at hxk
        exact hxk.symm
      simp only [hxkk]
      simpa using fun he => hw (by simp [he])

theorem map_mkRow_append_single (d : β) (ws : List (UpsertWrite κ α β))
    (w : UpsertWrite κ α β) (l : List (UpsertWrite κ α β)) :
    l.map (mkRow d (ws ++ [w])) = (l.map (mkRow d ws)).map (updIfKey w) := by
  rw [List.map_map]
  apply List.map_congr_left
  intro v _
  by_cases hk : w.key == v.key
  · exact mkRow_append_single_eq d ws w v hk
  · rw [mkRow_append_single_ne d ws w v hk]
    have : ¬ (mkRow d ws v).key == w.key := by
      simp only [mkRow, beq_iff_eq] at hk ⊢
      exact fun he => hk he.symm
    exact (updIfKey_ne w _ this).symm

theorem newKeysOf_append_single_stale (ws : List (UpsertWrite κ α β))
    (w : UpsertWrite κ α β) (tbl : List (PRow κ α β))
    (h : tbl.any (fun r => r.key == w.key) = true
      ∨ ws.any (fun x => w.key == x.key) = true) :
    newKeysOf (ws ++ [w]) tbl = newKeysOf ws tbl := by
  unfold newKeysOf
  rw [firstWrites_append, List.filter_append]
  suffices hnil : (((firstWrites [w]).filter
      (fun v => ¬ ws.any (fun w₀ => v.key == w₀.key))).filter
      (fun v => ¬ tbl.any (fun r => r.key == v.key))) = [] by
    rw [hnil, List.append_nil]
  rw [List.filter_eq_nil_iff]
  intro v hv
  have hv1 := List.mem_filter.mp hv
  have hvw : v = w := by
    have := hv1.1
    simp [firstWrites] at this
    exact this
  subst hvw
  rcases h with h | h
  · simp [h]
  · have := hv1.2
    simp [h] at this

theorem newKeysOf_append_single_fresh (ws : List (UpsertWrite κ α β))
    (w : UpsertWrite κ α β) (tbl : List (PRow κ α β))
    (htbl : tbl.any (fun r => r.key == w.key) = false)
    (hws : ws.any (fun x => w.key == x.key) = false) :
    newKeysOf (ws ++ [w]) tbl = newKeysOf ws tbl ++ [w] := by
  unfold newKeysOf
  rw [firstWrites_append, List.filter_append]
  congr 1
  have h1 : (firstWrites [w]).filter (fun v => ¬ ws.any (fun w₀ => v.key == w₀.key)) = [w] := by
    simp only [firstWrites, List.filter_nil, List.filter_cons]
    rw [if_pos]
    simp only [decide_eq_true_eq]
    intro hcon
    rw [hws] at hcon
    exact Bool.false_ne_true hcon
  rw [h1]
  have h2 : ∀ r ∈ tbl, ¬ (r.key == w.key) = true := by
    intro r hr hcon
    have : tbl.any (fun r => r.key == w.key) = true := List.any_eq_true.mpr ⟨r, hr, hcon⟩
    rw [htbl] at this
    exact Bool.false_ne_true this
  simp only [List.filter_cons, List.filter_nil]
  rw [if_pos]
  simp only [decide_eq_true_eq]
  intro hcon
  obtain ⟨r, hr, hrk⟩ := List.any_eq_true.mp hcon
  exact h2 r hr hrk

theorem newKeys_no_key_of_hws (ws : List (UpsertWrite κ α β)) (w : UpsertWrite κ α β)
    (tbl : List (PRow κ α β)) (hws : ws.any (fun x => w.key == x.key) = false) :
    (newKeysOf ws tbl).any (fun v => v.key == w.key) = false := by
  by_contra hcon
  rw [Bool.not_eq_false, List.any_eq_true] at hcon
  obtain ⟨v, hv, hvk⟩ := hcon
  have hvws : v ∈ ws := mem_firstWrites ws v (List.mem_filter.mp hv).1
  have : ws.any (fun x => w.key == x.key) = true := by
    apply List.any_eq_true.mpr
    refine ⟨v, hvws, ?_⟩
    simp only [beq_iff_eq] at hvk ⊢
    exact hvk.symm
  rw [hws] at this
  exact Bool.false_ne_true this

theorem semTable_append_single (d : β) (ws : List (UpsertWrite κ α β))
    (w : UpsertWrite κ α β) (tbl : List (PRow κ α β)) :
    semTable d (ws ++ [w]) tbl = upsertRowP d w (semTable d ws tbl) := by
  have hM : tbl.map (rewRow (ws ++ [w])) = (tbl.map (rewRow ws)).map (updIfKey w) := by
    rw [List.map_map]
    exact List.map_congr_left (fun r _ => rewRow_append_single ws w r)
  by_cases hstale : tbl.any (fun r => r.key == w.key) = true
      ∨ ws.any (fun x => w.key == x.key) = true
  · -- the write hits an existing row of the result
    have hany : (semTable d ws tbl).any (fun r => r.key == w.key) = true := by
      unfold semTable
      rw [List.any_append, any_key_map_rewRow, any_key_map_mkRow]
      rcases hstale with h | h
      · rw [h, Bool.true_or]
      · by_cases htbl : tbl.any (fun r => r.key == w.key) = true
        · rw [htbl, Bool.true_or]
        · have htbl2 : tbl.any (fun r => r.key == w.key) = false :=
            Bool.not_eq_true _ ▸ (Bool.eq_false_iff.mpr htbl)
          have hfw := firstWrites_keys_complete ws w.key h
          obtain ⟨v, hv, hvk⟩ := List.any_eq_true.mp hfw
          have hnk : (newKeysOf ws tbl).any (fun v => v.key == w.key) = true := by
            apply List.any_eq_true.mpr
            refine ⟨v, ?_, ?_⟩
            · apply List.mem_filter.mpr
              refine ⟨hv, ?_⟩
              have hvkeq : v.key = w.key := by
                simp only [beq_iff_eq] at hvk
                exact hvk.symm
              simp only [hvkeq, decide_eq_true_eq]
              intro hcon
              rw [htbl2] at hcon
              exact Bool.false_ne_true hcon
            · simp only [beq_iff_eq] at hvk ⊢
              exact hvk.symm
          rw [hnk, Bool.or_true]
    unfold upsertRowP
    rw [if_pos hany]
    unfold semTable
    rw [List.map_append, ← hM, newKeysOf_append_single_stale ws w tbl hstale,
      map_mkRow_append_single]
  · -- a genuinely fresh key: the upsert appends a new row
    push_neg at hstale
    obtain ⟨htbl, hws⟩ := hstale
    have htbl2 : tbl.any (fun r => r.key == w.key) = false := Bool.eq_false_iff.mpr htbl
    have hws2 : ws.any (fun x => w.key == x.key) = false := Bool.eq_false_iff.mpr hws
    have hany : (semTable d ws tbl).any (fun r => r.key == w.key) = false := by
      unfold semTable
      rw [List.any_append, any_key_map_rewRow, any_key_map_mkRow, htbl2,
        newKeys_no_key_of_hws ws w tbl hws2]
      rfl
    unfold upsertRowP
    rw [if_neg (by rw [hany]; exact Bool.false_ne_true)]
    unfold semTable
    rw [newKeysOf_append_single_fresh ws w tbl htbl2 hws2, List.map_append]
    have hMid : tbl.map (rewRow (ws ++ [w])) = tbl.map (rewRow ws) := by
      apply List.map_congr_left
      intro r hr
      rw [rewRow_append_single ws w r]
      apply updIfKey_ne
      rw [rewRow_key]
      intro hcon
      have : tbl.any (fun r => r.key == w.key) = true := List.any_eq_true.mpr ⟨r, hr, hcon⟩
      rw [htbl2] at this
      exact Bool.false_ne_true this
    have hN : (newKeysOf ws tbl).map (mkRow d (ws ++ [w]))
        = (newKeysOf ws tbl).map (mkRow d ws) := by
      apply List.map_congr_left
      intro v hv
      apply mkRow_append_single_ne
      intro hcon
      have hvws : v ∈ ws := mem_firstWrites ws v (List.mem_filter.mp hv).1
      have : ws.any (fun x => w.key == x.key) = true := List.any_eq_true.mpr ⟨v, hvws, hcon⟩
      rw [hws2] at this
      exact Bool.false_ne_true this
    have hw : [w].map (mkRow d (ws ++ [w])) = [insRow d w] := by
      rw [List.map_cons, List.map_nil,
        mkRow_fresh d ws w (lastA_eq_none_of_not_any ws w.key hws2)]
    rw [hMid, hN, hw, List.append_assoc]

theorem semTable_self_append (d : β) (ws : List (UpsertWrite κ α β))
    (tbl : List (PRow κ α β)) :
    semTable d (ws ++ ws) tbl = semTable d ws tbl := by
  unfold semTable
  have h1 : tbl.map (rewRow (ws ++ ws)) = tbl.map (rewRow ws) := by
    apply List.map_congr_left
    intro r _
    unfold rewRow
    rw [lastA_self_append, lastB_self_append]
  have h2 : newKeysOf (ws ++ ws) tbl = newKeysOf ws tbl := by
    unfold newKeysOf
    rw [firstWrites_self_append]
  have h3 : (newKeysOf ws tbl).map (mkRow d (ws ++ ws))
      = (newKeysOf ws tbl).map (mkRow d ws) := by
    apply List.map_congr_left
    intro v _
    unfold mkRow
    rw [lastA_self_append, lastB_self_append]
  rw [h1, h2, h3]

theorem applyWritesP_eq_semTable (d : β) (ws : List (UpsertWrite κ α β))
    (tbl : List (PRow κ α β)) : applyWritesP d ws tbl = semTable d ws tbl := by
  induction ws using List.reverseRecOn with
  | nil =>
    unfold applyWritesP semTable newKeysOf firstWrites
    have hid : tbl.map (rewRow ([] : List (UpsertWrite κ α β))) = tbl := by
      rw [show rewRow ([] : List (UpsertWrite κ α β)) = id from funext (fun r => rfl),
        List.map_id]
    simp [hid]
  | append_singleton ws w ih =>
    unfold applyWritesP at ih ⊢
    rw [List.foldl_append, List.foldl_cons, List.foldl_nil, ih,
      ← semTable_append_single]

/-- Re-running any upsert sequence is a no-op on the timestamp-free state. -/
theorem applyWritesP_idem (d : β) (ws : List (UpsertWrite κ α β))
    (tbl : List (PRow κ α β)) :
    applyWritesP d ws (applyWritesP d ws tbl) = applyWritesP d ws tbl := by
  have h1 : applyWritesP d ws (applyWritesP d ws tbl) = applyWritesP d (ws ++ ws) tbl := by
    unfold applyWritesP
    rw [List.foldl_append]
  rw [h1, applyWritesP_eq_semTable, applyWritesP_eq_semTable, semTable_self_append]

theorem applyWrites_append (d : β) (t : Int) (ws ws' : List (UpsertWrite κ α β))
    (tbl : List (TRow κ α β)) :
    applyWrites d t (ws ++ ws') tbl = applyWrites d t ws' (applyWrites d t ws tbl) := by
  unfold applyWrites
  rw [List.foldl_append]

theorem any_key_map_strip (tbl : List (TRow κ α β)) (k : κ) :
    (tbl.map TRow.strip).any (fun r => r.key == k) = tbl.any (fun r => r.key == k) := by
  induction tbl with
  | nil => rfl
  | cons r rs ih => simp only [List.map_cons, List.any_cons, ih, TRow.strip]

theorem strip_upsertRow (d : β) (t : Int) (w : UpsertWrite κ α β)
    (tbl : List (TRow κ α β)) :
    (upsertRow d t w tbl).map TRow.strip = upsertRowP d w (tbl.map TRow.strip) := by
  unfold upsertRow upsertRowP
  rw [any_key_map_strip]
  by_cases hc : tbl.any (fun r => r.key == w.key) = true
  · rw [if_pos hc, if_pos hc, List.map_map, List.map_map]
    apply List.map_congr_left
    intro r _
    by_cases hk : r.key == w.key
    · simp [Function.comp, TRow.strip, updIfKey, hk]
    · simp [Function.comp, TRow.strip, updIfKey, hk]
  · rw [if_neg hc, if_neg hc, List.map_append]
    rfl

theorem strip_applyWrites (d : β) (t : Int) (ws : List (UpsertWrite κ α β)) :
    ∀ tbl : List (TRow κ α β),
      (applyWrites d t ws tbl).map TRow.strip = applyWritesP d ws (tbl.map TRow.strip) := by
  induction ws with
  | nil => intro tbl; rfl
  | cons w ws ih =>
    intro tbl
    unfold applyWrites applyWritesP
    rw [List.foldl_cons, List.foldl_cons]
    have h1 := ih (upsertRow d t w tbl)
    unfold applyWrites applyWritesP at h1
    rw [h1, strip_upsertRow]

end UpsertLemmas

/-! ## C9: decomposing a migration run into its per-table upsert sequences -/

theorem channelPass_components (t : Int) (items : List LegacyChannel) :
    ∀ db : MigrationDb,
      ((items.foldl (fun db c =>
        { db with
          chatters := upsertRow 0 t (channelPassChatterWrite c) db.chatters
          channels := upsertRow () t (channelPassChannelWrite c) db.channels }) db).chatters
        = applyWrites 0 t (items.map channelPassChatterWrite) db.chatters)
      ∧ ((items.foldl (fun db c =>
        { db with
          chatters := upsertRow 0 t (channelPassChatterWrite c) db.chatters
          channels := upsertRow () t (channelPassChannelWrite c) db.channels }) db).channels
        = applyWrites () t (items.map channelPassChannelWrite) db.channels)
      ∧ ((items.foldl (fun db c =>
        { db with
          chatters := upsertRow 0 t (channelPassChatterWrite c) db.chatters
          channels := upsertRow () t (channelPassChannelWrite c) db.channels }) db).scores
        = db.scores) := by
  induction items with
  | nil => intro db; exact ⟨rfl, rfl, rfl⟩
  | cons c cs ih =>
    intro db
    rw [List.foldl_cons]
    refine ⟨?_, ?_, ?_⟩
    · rw [(ih _).1]; rfl
    · rw [(ih _).2.1]; rfl
    · rw [(ih _).2.2]

theorem scoreFold_components (t : Int)
    (wsS : List (UpsertWrite (String × String) Int Unit)) :
    ∀ db : MigrationDb,
      ((wsS.foldl (fun db w => { db with scores := upsertRow () t w db.scores }) db).chatters
        = db.chatters)
      ∧ ((wsS.foldl (fun db w => { db with scores := upsertRow () t w db.scores }) db).channels
        = db.channels)
      ∧ ((wsS.foldl (fun db w => { db with scores := upsertRow () t w db.scores }) db).scores
        = applyWrites () t wsS db.scores) := by
  induction wsS with
  | nil => intro db; exact ⟨rfl, rfl, rfl⟩
  | cons w ws ih =>
    intro db
    rw [List.foldl_cons]
    refine ⟨?_, ?_, ?_⟩
    · rw [(ih _).1]
    · rw [(ih _).2.1]
    · rw [(ih _).2.2]; rfl

theorem chatterPass_components (log : LegacyLog) (t : Int) (items : List LegacyChatter) :
    ∀ db : MigrationDb,
      ((items.foldl (fun db c =>
        let db2 := { db with chatters := upsertRow 0 t (chatterPassChatterWrite c) db.chatters }
        (chatterPassScoreWrites log c).foldl
          (fun db w => { db with scores := upsertRow () t w db.scores }) db2) db).chatters
        = applyWrites 0 t (items.map chatterPassChatterWrite) db.chatters)
      ∧ ((items.foldl (fun db c =>
        let db2 := { db with chatters := upsertRow 0 t (chatterPassChatterWrite c) db.chatters }
        (chatterPassScoreWrites log c).foldl
          (fun db w => { db with scores := upsertRow () t w db.scores }) db2) db).channels
        = db.channels)
      ∧ ((items.foldl (fun db c =>
        let db2 := { db with chatters := upsertRow 0 t (chatterPassChatterWrite c) db.chatters }
        (chatterPassScoreWrites log c).foldl
          (fun db w => { db with scores := upsertRow () t w db.scores }) db2) db).scores
        = applyWrites () t (items.flatMap (fun c => chatterPassScoreWrites log c)) db.scores) := by
  induction items with
  | nil => intro db; exact ⟨rfl, rfl, rfl⟩
  | cons c cs ih =>
    intro db
    rw [List.foldl_cons]
    have hs := scoreFold_components t (chatterPassScoreWrites log c)
      { db with chatters := upsertRow 0 t (chatterPassChatterWrite c) db.chatters }
    refine ⟨?_, ?_, ?_⟩
    · rw [(ih _).1, hs.1]; rfl
    · rw [(ih _).2.1, hs.2.1]
    · rw [(ih _).2.2, hs.2.2, List.flatMap_cons, applyWrites_append]

theorem runMigration_components (log : LegacyLog) (t : Int) (db : MigrationDb) :
    (runMigration log t db).chatters = applyWrites 0 t (chatterWrites log) db.chatters
    ∧ (runMigration log t db).channels = applyWrites () t (channelWrites log) db.channels
    ∧ (runMigration log t db).scores = applyWrites () t (scoreWrites log) db.scores := by
  unfold runMigration chatterWrites channelWrites scoreWrites
  have hchan := channelPass_components t log.channelItems db
  have hchat := chatterPass_components log t log.chatterItems
    (log.channelItems.foldl (fun db c =>
      { db with
        chatters := upsertRow 0 t (channelPassChatterWrite c) db.chatters
        channels := upsertRow () t (channelPassChannelWrite c) db.channels }) db)
  refine ⟨?_, ?_, ?_⟩
  · rw [hchat.1, hchan.1, ← applyWrites_append]
  · rw [hchat.2.1, hchan.2.1]
  · rw [hchat.2.2, hchan.2.2]

/-- C9: running the migrator twice at any two times against the same resolved
legacy log yields identical Score Store contents up to the `updated_at`
restamping the conflict branch performs: all keys, profile columns, totals and
score values agree row-for-row (the stripped states are equal), so the second
run creates no duplicate rows, grows no row counts, and changes no score
value. -/
theorem migrator_idempotent :
    ∀ (log : LegacyLog) (t1 t2 : Int) (db : MigrationDb),
      (runMigration log t2 (runMigration log t1 db)).strip = (runMigration log t1 db).strip
      ∧ (runMigration log t2 (runMigration log t1 db)).chatters.length
          = (runMigration log t1 db).chatters.length
      ∧ (runMigration log t2 (runMigration log t1 db)).channels.length
          = (runMigration log t1 db).channels.length
      ∧ (runMigration log t2 (runMigration log t1 db)).scores.length
          = (runMigration log t1 db).scores.length := by
  intro log t1 t2 db
  have hch : (runMigration log t2 (runMigration log t1 db)).chatters.map TRow.strip
      = (runMigration log t1 db).chatters.map TRow.strip := by
    rw [(runMigration_components log t2 (runMigration log t1 db)).1, strip_applyWrites]
    have hb : (runMigration log t1 db).chatters.map TRow.strip
        = applyWritesP 0 (chatterWrites log) (db.chatters.map TRow.strip) := by
      rw [(runMigration_components log t1 db).1, strip_applyWrites]
    rw [hb, applyWritesP_idem]
  have hchan : (runMigration log t2 (runMigration log t1 db)).channels.map TRow.strip
      = (runMigration log t1 db).channels.map TRow.strip := by
    rw [(runMigration_components log t2 (runMigration log t1 db)).2.1, strip_applyWrites]
    have hb : (runMigration log t1 db).channels.map TRow.strip
        = applyWritesP () (channelWrites log) (db.channels.map TRow.strip) := by
      rw [(runMigration_components log t1 db).2.1, strip_applyWrites]
    rw [hb, applyWritesP_idem]
  have hsc : (runMigration log t2 (runMigration log t1 db)).scores.map TRow.strip
      = (runMigration log t1 db).scores.map TRow.strip := by
    rw [(runMigration_components log t2 (runMigration log t1 db)).2.2, strip_applyWrites]
    have hb : (runMigration log t1 db).scores.map TRow.strip
        = applyWritesP () (scoreWrites log) (db.scores.map TRow.strip) := by
      rw [(runMigration_components log t1 db).2.2, strip_applyWrites]
    rw [hb, applyWritesP_idem]
  refine ⟨?_, ?_, ?_, ?_⟩
  · unfold MigrationDb.strip
    rw [hch, hchan, hsc]
  · have := congrArg List.length hch
    simpa using this
  · have := congrArg List.length hchan
    simpa using this
  · have := congrArg List.length hsc
    simpa using this



end PeaFan
